import Mathlib

/-!
Verification of the rdf-construct merge / split / refactor core.

The merge, splitter and refactor implementation modules are not present in
the checked-out tree (only their test suites and the package re-exports
are), so every operation below is modelled from the specification's
description of the data model and the algorithms (spec sections 2-4, 7, 8)
and cross-checked against the behaviour the test suites exercise.
Graphs are sets of triples, represented as duplicate-free lists; identifier
text is compared character-wise through the underlying character lists.
-/

/-- An RDF term: a URI identifier, an anonymous (blank) node, or a literal
carrying its text together with an optional datatype and language tag. -/
inductive Term where
  | uri : String → Term
  | blank : String → Term
  | lit : String → Option String → Option String → Term
deriving DecidableEq, Repr

/-- A subject-predicate-object statement, the atomic unit of the graph. -/
structure Triple where
  subj : Term
  pred : Term
  obj : Term
deriving DecidableEq, Repr

/-- A graph is a set of triples; we represent it as a list and carry
`List.Nodup` where set-ness matters. -/
abbrev RDFGraph := List Triple

/-- Whether a term is a literal. -/
def Term.isLiteral : Term → Bool
  | .lit _ _ _ => true
  | _ => false

/-- The identifier text of a URI term, if any. -/
def Term.uriValue? : Term → Option String
  | .uri v => some v
  | _ => none

/-- Character-wise rendering of a term, used by conflict markers. -/
def renderTerm : Term → String
  | .uri v => "<" ++ v ++ ">"
  | .blank b => "_:" ++ b
  | .lit v _ _ => "\"" ++ v ++ "\""

/-- Modelled from the spec: `SourceGraph`, an in-memory graph paired with
its origin path and an integer priority (missing module
`rdf_construct.merge.conflicts`). -/
structure SourceGraph where
  graph : RDFGraph
  path : String
  priority : Nat
deriving DecidableEq, Repr

/-- Modelled from the spec: `ConflictValue`, one differing object value
together with the source reporting it and that source's priority (missing
module `rdf_construct.merge.conflicts`). -/
structure ConflictValue where
  value : Term
  path : String
  priority : Nat
deriving DecidableEq, Repr

/-- Modelled from the spec: a `Conflict` is a (subject, predicate) pair with
two or more differing contributed values and an optional resolution
(missing module `rdf_construct.merge.conflicts`). -/
structure Conflict where
  subject : Term
  predicate : Term
  values : List ConflictValue
  resolution : Option ConflictValue
deriving DecidableEq, Repr

/-- A conflict is resolved once its resolution has been set. -/
def Conflict.is_resolved (c : Conflict) : Bool := c.resolution.isSome

/-- The distinct object values a single source contributes for one
(subject, predicate) pair. -/
def valuesFor (s : SourceGraph) (subject predicate : Term) : List Term :=
  ((s.graph.filter (fun t => decide (t.subj = subject ∧ t.pred = predicate))).map
    (fun t => t.obj)).dedup

/-- The sources that contain at least one triple for the pair. -/
def sourcesWith (sources : List SourceGraph) (subject predicate : Term) :
    List SourceGraph :=
  sources.filter (fun s => decide (valuesFor s subject predicate ≠ []))

/-- Whether two value collections are equal as sets. -/
def sameValueSet (a b : List Term) : Bool :=
  decide (∀ x ∈ a, x ∈ b) && decide (∀ x ∈ b, x ∈ a)

/-- Modelled from the spec: a pair conflicts when two or more sources
contribute values for it and the contributing value sets do not all agree
(missing module `rdf_construct.merge.conflicts`). -/
def isConflict (sources : List SourceGraph) (subject predicate : Term) : Bool :=
  let withPair := sourcesWith sources subject predicate
  decide (2 ≤ withPair.length) &&
    match withPair with
    | [] => false
    | s₀ :: rest =>
      !rest.all (fun s => sameValueSet (valuesFor s subject predicate)
        (valuesFor s₀ subject predicate))

/-- Keep the first `ConflictValue` per distinct underlying value. -/
def dedupByValue : List ConflictValue → List ConflictValue
  | [] => []
  | v :: rest => v :: dedupByValue (rest.filter (fun w => decide (w.value ≠ v.value)))
termination_by l => l.length
decreasing_by
  simp only [List.length_cons]
  exact Nat.lt_succ_of_le (List.length_filter_le _ _)

/-- One `ConflictValue` per distinct value, created in configured source
order, each carrying the first source reporting it and that source's
priority. -/
def conflictValuesFor (sources : List SourceGraph) (subject predicate : Term) :
    List ConflictValue :=
  dedupByValue (sources.flatMap (fun s =>
    (valuesFor s subject predicate).map (fun v => ⟨v, s.path, s.priority⟩)))

/-- The distinct (subject, predicate) pairs appearing in the union of all
source graphs. -/
def pairsOf (sources : List SourceGraph) : List (Term × Term) :=
  (sources.flatMap (fun s => s.graph.map (fun t => (t.subj, t.pred)))).dedup

/-- Modelled from the spec: `ConflictDetector.detect_conflicts` - for every
distinct (subject, predicate) pair in the union of the sources, emit one
`Conflict` when two or more sources contribute differing values, skipping
ignored predicates (missing module `rdf_construct.merge.conflicts`). -/
def detect_conflicts (sources : List SourceGraph)
    (ignorePredicates : List Term) : List Conflict :=
  ((pairsOf sources).filter (fun sp =>
      decide (sp.2 ∉ ignorePredicates) && isConflict sources sp.1 sp.2)).map
    (fun sp =>
      { subject := sp.1, predicate := sp.2,
        values := conflictValuesFor sources sp.1 sp.2, resolution := none })

/-- The value of maximal priority, keeping the earliest on ties. -/
def pickMaxPriority : List ConflictValue → Option ConflictValue
  | [] => none
  | v :: rest =>
    match pickMaxPriority rest with
    | none => some v
    | some w => if v.priority < w.priority then some w else some v

/-- Modelled from the spec: priority strategy - pick the `ConflictValue`
with the highest priority, ties broken by source list order, earlier wins
(missing module `rdf_construct.merge.conflicts`). -/
def Conflict.resolve_by_priority (c : Conflict) : Conflict :=
  { c with resolution := pickMaxPriority c.values }

/-- Modelled from the spec: first strategy - pick the value from the source
earliest in the configured list. -/
def Conflict.resolve_by_first (c : Conflict) : Conflict :=
  { c with resolution := c.values.head? }

/-- Modelled from the spec: last strategy - pick the value from the source
latest in the configured list. -/
def Conflict.resolve_by_last (c : Conflict) : Conflict :=
  { c with resolution := c.values.getLast? }

/-- Modelled from the spec: the machine-readable begin sentinel identifying
subject and predicate of an unresolved conflict. -/
def generate_conflict_marker (subject predicate : Term) : String :=
  "# BEGIN CONFLICT " ++ renderTerm subject ++ " " ++ renderTerm predicate

/-- Modelled from the spec: the matching end sentinel. -/
def generate_conflict_end_marker (subject predicate : Term) : String :=
  "# END CONFLICT " ++ renderTerm subject ++ " " ++ renderTerm predicate

/-- The conflict-resolution strategies of the merge configuration. -/
inductive ConflictStrategy where
  | priority : ConflictStrategy
  | first : ConflictStrategy
  | last : ConflictStrategy
  | mark_all : ConflictStrategy
deriving DecidableEq, Repr

/-- Modelled from the spec: `MergeResult` - merged graph, conflicts
(resolved and unresolved), statistics, success flag and optional error.
Conflict markers are the begin/end sentinel pairs emitted under
`mark_all`. -/
structure MergeResult where
  merged_graph : RDFGraph
  conflicts : List Conflict
  unresolved_conflicts : List Conflict
  conflict_markers : List (String × String)
  source_stats : List (String × Nat)
  total_triples : Nat
  success : Bool
  error : Option String
deriving Repr

/-- The set union of all source triples. -/
def allTriples (sources : List SourceGraph) : RDFGraph :=
  (sources.flatMap (fun s => s.graph)).dedup

/-- Resolve one conflict according to the strategy (`mark_all` resolves
nothing). -/
def resolveConflict (strategy : ConflictStrategy) (c : Conflict) : Conflict :=
  match strategy with
  | .priority => c.resolve_by_priority
  | .first => c.resolve_by_first
  | .last => c.resolve_by_last
  | .mark_all => c

/-- Modelled from the spec: `OntologyMerger.merge` over already-loaded
sources - detect conflicts, resolve them per the strategy, then union all
non-conflicting triples with the chosen (or, under `mark_all`, all
competing) values (missing module `rdf_construct.merge.merger`). -/
def mergeSources (sources : List SourceGraph) (strategy : ConflictStrategy)
    (ignorePredicates : List Term) : MergeResult :=
  let conflicts := detect_conflicts sources ignorePredicates
  let conflictPairs := conflicts.map (fun c => (c.subject, c.predicate))
  let nonConflicting := (allTriples sources).filter
    (fun t => decide ((t.subj, t.pred) ∉ conflictPairs))
  match strategy with
  | .mark_all =>
    { merged_graph := allTriples sources
      conflicts := conflicts
      unresolved_conflicts := conflicts
      conflict_markers := conflicts.map (fun c =>
        (generate_conflict_marker c.subject c.predicate,
         generate_conflict_end_marker c.subject c.predicate))
      source_stats := sources.map (fun s => (s.path, s.graph.length))
      total_triples := (allTriples sources).length
      success := true
      error := none }
  | s =>
    let resolved := conflicts.map (resolveConflict s)
    let chosen := resolved.filterMap (fun c =>
      c.resolution.map (fun v => Triple.mk c.subject c.predicate v.value))
    let merged := nonConflicting ++ chosen
    { merged_graph := merged
      conflicts := resolved
      unresolved_conflicts := resolved.filter (fun c => !c.is_resolved)
      conflict_markers := []
      source_stats := sources.map (fun s => (s.path, s.graph.length))
      total_triples := merged.length
      success := true
      error := none }

/-- Character-wise namespace test: `ns` is a prefix of the identifier text
`u`. -/
def startsWithNs (ns u : String) : Bool := ns.data.isPrefixOf u.data

/-- The remainder of identifier `u` after namespace `ns`. -/
def suffixAfter (ns u : String) : String := String.mk (u.data.drop ns.data.length)

/-- Modelled from the spec: `MigrationStats` - counts of subjects,
predicates and objects rewritten, plus the literal mentions left untouched
(missing module `rdf_construct.merge.migrator`). -/
structure MigrationStats where
  subjects_updated : Nat
  predicates_updated : Nat
  objects_updated : Nat
  literal_mentions : List (String × String)
deriving DecidableEq, Repr

/-- Modelled from the spec: `MigrationResult`, output of
`DataMigrator.migrate`. -/
structure MigrationResult where
  migrated_graph : RDFGraph
  stats : MigrationStats
  success : Bool
deriving DecidableEq, Repr

/-- Rewrite a term through the URI map when it is an identifier present as
a key; anonymous nodes and literals are never rewritten. -/
def applyUriMap (uriMap : List (String × String)) : Term → Term
  | .uri v =>
    match uriMap.lookup v with
    | some w => .uri w
    | none => .uri v
  | t => t

/-- Rewrite each component of a triple through the URI map. -/
def migrateTriple (uriMap : List (String × String)) (t : Triple) : Triple :=
  ⟨applyUriMap uriMap t.subj, applyUriMap uriMap t.pred, applyUriMap uriMap t.obj⟩

/-- The local name of an identifier: the text after the last `/` or `#`. -/
def localName (u : String) : String :=
  String.mk ((u.data.reverse.takeWhile (fun c => decide (c ≠ '/' ∧ c ≠ '#'))).reverse)

/-- Whether `needle` occurs as a contiguous substring of `hay`. -/
def occursIn (needle hay : String) : Bool := decide (List.IsInfix needle.data hay.data)

/-- Modelled from the spec: places where a renamed identifier's local name
appears inside a literal's text; recorded for manual review, never
rewritten. -/
def literalMentions (uriMap : List (String × String)) (g : RDFGraph) :
    List (String × String) :=
  g.flatMap (fun t =>
    match t.obj with
    | .lit v _ _ =>
      (uriMap.filter (fun p => occursIn (localName p.1) v)).map (fun p => (p.1, v))
    | _ => [])

/-- Modelled from the spec: `DataMigrator.migrate` - every triple's
subject, predicate and object are rewritten through the map when present
as a key; literal values are never rewritten, occurrences of renamed local
names inside literals are only recorded (missing module
`rdf_construct.merge.migrator`). -/
def migrate (g : RDFGraph) (uriMap : List (String × String)) : MigrationResult :=
  { migrated_graph := g.map (migrateTriple uriMap)
    stats :=
      { subjects_updated := g.countP (fun t => decide (applyUriMap uriMap t.subj ≠ t.subj))
        predicates_updated := g.countP (fun t => decide (applyUriMap uriMap t.pred ≠ t.pred))
        objects_updated := g.countP (fun t => decide (applyUriMap uriMap t.obj ≠ t.obj))
        literal_mentions := literalMentions uriMap g }
    success := true }

/-- Every identifier occurring in the graph (as subject, predicate or
object), without duplicates. -/
def graphIdentifiers (g : RDFGraph) : List String :=
  ((g.flatMap (fun t => [t.subj, t.pred, t.obj])).filterMap Term.uriValue?).dedup

/-- Modelled from the spec: `build_uri_map_from_namespaces` - enumerate
every identifier in the graph whose value starts with a configured old
namespace and map it to the new namespace followed by the same local
suffix (missing module `rdf_construct.merge.migrator`). -/
def build_uri_map_from_namespaces (g : RDFGraph)
    (table : List (String × String)) : List (String × String) :=
  (graphIdentifiers g).filterMap (fun u =>
    (table.find? (fun p => startsWithNs p.1 u)).map (fun p =>
      (u, p.2 ++ suffixAfter p.1 u)))

/-- Whether any identifier of the graph starts with the namespace. -/
def graphReferencesNs (g : RDFGraph) (ns : String) : Bool :=
  (graphIdentifiers g).any (fun u => startsWithNs ns u)

/-- Modelled from the spec: `RenameConfig` of the refactor facility - a
namespace-to-namespace table plus explicit entity mappings, explicit
entries overriding namespace-derived ones (missing module
`rdf_construct.refactor`). -/
structure RenameConfig where
  namespaces : List (String × String) := []
  entities : List (String × String) := []
deriving Repr

/-- Build the full URI map for a rename: explicit entity mappings first
(so they win over namespace-derived mappings), then the map derived from
the namespace table over the graph's identifiers. -/
def RenameConfig.build_mappings (cfg : RenameConfig) (g : RDFGraph) :
    List (String × String) :=
  cfg.entities ++ build_uri_map_from_namespaces g cfg.namespaces

/-- Statistics of a rename run. -/
structure RenameStats where
  subjects_renamed : Nat
  predicates_renamed : Nat
  objects_renamed : Nat
  literal_mentions : List (String × String)
deriving Repr

/-- The total number of renamed positions. -/
def RenameStats.total_renames (s : RenameStats) : Nat :=
  s.subjects_renamed + s.predicates_renamed + s.objects_renamed

/-- Result of `OntologyRenamer.rename`. -/
structure RenameResult where
  renamed_graph : RDFGraph
  stats : RenameStats
  success : Bool
deriving Repr

/-- Modelled from the spec: `OntologyRenamer.rename` - bulk URI
substitution driven by a `RenameConfig`, implemented over the migrator's
rewrite rule (missing module `rdf_construct.refactor`). -/
def OntologyRenamer.rename (g : RDFGraph) (cfg : RenameConfig) : RenameResult :=
  let r := migrate g (cfg.build_mappings g)
  { renamed_graph := r.migrated_graph
    stats :=
      { subjects_renamed := r.stats.subjects_updated
        predicates_renamed := r.stats.predicates_updated
        objects_renamed := r.stats.objects_updated
        literal_mentions := r.stats.literal_mentions }
    success := r.success }

/-- The `rdfs:subClassOf` hierarchy relation. -/
def rdfsSubClassOf : Term := .uri "http://www.w3.org/2000/01/rdf-schema#subClassOf"

/-- The `rdf:type` predicate. -/
def rdfType : Term := .uri "http://www.w3.org/1999/02/22-rdf-syntax-ns#type"

/-- The `owl:imports` predicate. -/
def owlImports : Term := .uri "http://www.w3.org/2002/07/owl#imports"

/-- Modelled from the spec: `ModuleDefinition` - name, output path,
explicit entity lists, namespace prefixes, include_descendants flag,
imports list and auto_imports flag (missing module
`rdf_construct.merge.splitter`). -/
structure ModuleDefinition where
  name : String
  output : String
  classes : List Term := []
  properties : List Term := []
  instances : List Term := []
  namespaces : List String := []
  include_descendants : Bool := false
  imports : List String := []
  auto_imports : Bool := false
deriving DecidableEq, Repr

/-- The unmatched-entity strategies of a split configuration. -/
inductive UnmatchedKind where
  | common : UnmatchedKind
  | error : UnmatchedKind
  | drop : UnmatchedKind
deriving DecidableEq, Repr

/-- Modelled from the spec: the unmatched-entity strategy plus the shared
module it routes to under `common`. -/
structure UnmatchedStrategy where
  strategy : UnmatchedKind := .common
  common_module : String := "common"
  common_output : String := "common.ttl"
deriving DecidableEq, Repr

/-- Modelled from the spec: `SplitConfig` - source path, output directory,
ordered module list, unmatched strategy, manifest flag and dry-run flag
(missing module `rdf_construct.merge.splitter`). -/
structure SplitConfig where
  source : String
  output_dir : String
  modules : List ModuleDefinition
  unmatched : UnmatchedStrategy := {}
  generate_manifest : Bool := false
  dry_run : Bool := false
deriving Repr

/-- The direct superclasses of `c` in the graph. -/
def directSuperclasses (g : RDFGraph) (c : Term) : List Term :=
  (g.filter (fun t => decide (t.subj = c ∧ t.pred = rdfsSubClassOf))).map
    (fun t => t.obj)

/-- Fuelled walk up the subclass hierarchy. -/
def isDescendantAux (g : RDFGraph) : Nat → Term → Term → Bool
  | 0, _, _ => false
  | fuel + 1, d, c =>
    (directSuperclasses g d).any (fun s => decide (s = c) || isDescendantAux g fuel s c)

/-- `d` is a transitive subclass of `c` via the hierarchy relation. -/
def is_descendant (g : RDFGraph) (d c : Term) : Bool :=
  isDescendantAux g (g.length + 1) d c

/-- Exact membership in a module's explicit entity lists. -/
def ModuleDefinition.claims_explicit (m : ModuleDefinition) (e : Term) : Bool :=
  decide (e ∈ m.classes) || decide (e ∈ m.properties) || decide (e ∈ m.instances)

/-- Match against a module's configured namespace prefixes. -/
def ModuleDefinition.claims_namespace (m : ModuleDefinition) (e : Term) : Bool :=
  m.namespaces.any (fun ns =>
    match e with
    | .uri v => startsWithNs ns v
    | _ => false)

/-- Descendant expansion: a module with `include_descendants` claims every
transitive subclass of a class it matched by name. -/
def claimsDescendant (g : RDFGraph) (m : ModuleDefinition) (e : Term) : Bool :=
  m.include_descendants && m.classes.any (fun c => is_descendant g e c)

/-- Modelled from the spec: whether a module claims an entity - by exact
entity list, namespace prefix, or descendant expansion (missing module
`rdf_construct.merge.splitter`). -/
def module_claims (g : RDFGraph) (m : ModuleDefinition) (e : Term) : Bool :=
  m.claims_explicit e || m.claims_namespace e || claimsDescendant g m e

/-- Modelled from the spec: modules are evaluated in configuration order
and the first module that claims an entity owns it (missing module
`rdf_construct.merge.splitter`). -/
def assign_entity (g : RDFGraph) (modules : List ModuleDefinition) (e : Term) :
    Option String :=
  (modules.find? (fun m => module_claims g m e)).map (fun m => m.name)

/-- The entities of a graph: its distinct subjects. -/
def graphEntities (g : RDFGraph) : List Term :=
  (g.map (fun t => t.subj)).dedup

/-- The triples whose subject is owned by module `m`. -/
def moduleGraph (g : RDFGraph) (modules : List ModuleDefinition)
    (m : ModuleDefinition) : RDFGraph :=
  g.filter (fun t => decide (assign_entity g modules t.subj = some m.name))

/-- The triples whose subject no module claims. -/
def unmatchedGraph (g : RDFGraph) (modules : List ModuleDefinition) : RDFGraph :=
  g.filter (fun t => decide (assign_entity g modules t.subj = none))

/-- Modelled from the spec: the modules that module `m` depends on - owners
of identifiers referenced as objects from `m`-owned subjects. -/
def dependenciesOf (g : RDFGraph) (modules : List ModuleDefinition)
    (m : ModuleDefinition) : List String :=
  ((moduleGraph g modules m).filterMap (fun t =>
    match t.obj with
    | .uri _ =>
      match assign_entity g modules t.obj with
      | some n => if n = m.name then none else some n
      | none => none
    | _ => none)).dedup

/-- Modelled from the spec: import declarations emitted into a module's
output - explicit imports are always emitted, auto imports add one
declaration per inferred dependency. -/
def moduleImportTriples (g : RDFGraph) (modules : List ModuleDefinition)
    (m : ModuleDefinition) : RDFGraph :=
  m.imports.map (fun i => Triple.mk (.uri m.name) owlImports (.uri i)) ++
    (if m.auto_imports then
      (dependenciesOf g modules m).map (fun d =>
        Triple.mk (.uri m.name) owlImports (.uri d))
    else [])

/-- Modelled from the spec: `SplitResult` - one graph per module, the
entity assignment map, the dependency graph, the unmatched entities, a
success flag and an optional error (missing module
`rdf_construct.merge.splitter`). -/
structure SplitResult where
  modules : List (String × RDFGraph) := []
  data_modules : List (String × RDFGraph) := []
  entity_assignments : List (Term × String) := []
  dependencies : List (String × List String) := []
  unmatched_entities : List Term := []
  success : Bool := true
  error : Option String := none
deriving Repr

/-- Modelled from the spec: `OntologySplitter.split` over a loaded graph -
assign every entity to the first module claiming it, route unmatched
entities per the configured strategy, and emit one graph per module
(missing module `rdf_construct.merge.splitter`). -/
def splitGraph (cfg : SplitConfig) (g : RDFGraph) : SplitResult :=
  let ms := cfg.modules
  let entities := graphEntities g
  let unmatched := entities.filter (fun e => decide (assign_entity g ms e = none))
  if cfg.unmatched.strategy = UnmatchedKind.error ∧ unmatched ≠ [] then
    { success := false
      error := some ("Unmatched entities: " ++
        String.intercalate ", " (unmatched.map renderTerm))
      unmatched_entities := unmatched }
  else
    let base := ms.map (fun m =>
      (m.name, moduleGraph g ms m ++ moduleImportTriples g ms m))
    let outputs :=
      match cfg.unmatched.strategy with
      | .common => base ++ [(cfg.unmatched.common_module, unmatchedGraph g ms)]
      | _ => base
    { modules := outputs
      entity_assignments := entities.filterMap (fun e =>
        (assign_entity g ms e).map (fun n => (e, n)))
      dependencies := ms.map (fun m => (m.name, dependenciesOf g ms m))
      unmatched_entities := unmatched
      success := true
      error := none }

/-- The external storage boundary: a mapping from paths to parsed graphs. -/
abbrev FileSystem := List (String × RDFGraph)

/-- Load a parsed graph from the storage boundary. -/
def loadGraph (fs : FileSystem) (path : String) : Option RDFGraph :=
  fs.lookup path

/-- Modelled from the spec: `OntologySplitter.split` including the load
step - a missing or unreadable source file is a fatal load error returned
as a structured failure, never an exception. -/
def split (fs : FileSystem) (cfg : SplitConfig) : SplitResult :=
  match loadGraph fs cfg.source with
  | none =>
    { success := false
      error := some ("Failed to load source: " ++ cfg.source ++ " not found") }
  | some g => splitGraph cfg g

/-- Modelled from the spec: one ordered source entry of a merge
configuration. -/
structure SourceConfig where
  path : String
  priority : Option Nat := none
  namespace_remap : List (String × String) := []
deriving Repr

/-- Priority of a source: explicit, or the 1-based position in the list. -/
def sourcePriority (idx : Nat) (sc : SourceConfig) : Nat :=
  sc.priority.getD (idx + 1)

/-- Rewrite every URI starting with a configured old namespace to the
corresponding new namespace, preserving the remainder. -/
def remapTerm (table : List (String × String)) : Term → Term
  | .uri v =>
    match table.find? (fun p => startsWithNs p.1 v) with
    | some p => .uri (p.2 ++ suffixAfter p.1 v)
    | none => .uri v
  | t => t

/-- Apply a namespace remap to a whole graph. -/
def remapGraph (table : List (String × String)) (g : RDFGraph) : RDFGraph :=
  g.map (fun t => ⟨remapTerm table t.subj, remapTerm table t.pred, remapTerm table t.obj⟩)

/-- Load one source into a `SourceGraph`, applying its namespace remap. -/
def loadSource (fs : FileSystem) (idx : Nat) (sc : SourceConfig) :
    Except String SourceGraph :=
  match loadGraph fs sc.path with
  | none => .error ("Failed to load source: " ++ sc.path ++ " not found")
  | some g =>
    .ok { graph := remapGraph sc.namespace_remap g
          path := sc.path
          priority := sourcePriority idx sc }

/-- Load all sources in order; the first load failure fails the whole
merge. -/
def loadSources (fs : FileSystem) : Nat → List SourceConfig →
    Except String (List SourceGraph)
  | _, [] => .ok []
  | i, sc :: rest =>
    match loadSource fs i sc with
    | .error e => .error e
    | .ok s =>
      match loadSources fs (i + 1) rest with
      | .error e => .error e
      | .ok ss => .ok (s :: ss)

/-- Modelled from the spec: merge configuration - ordered sources, a
conflict strategy and ignored predicates. -/
structure MergeConfig where
  sources : List SourceConfig
  strategy : ConflictStrategy := .priority
  ignore_predicates : List Term := []
deriving Repr

/-- A failed merge result. -/
def failedMerge (e : String) : MergeResult :=
  { merged_graph := []
    conflicts := []
    unresolved_conflicts := []
    conflict_markers := []
    source_stats := []
    total_triples := 0
    success := false
    error := some e }

/-- Modelled from the spec: `OntologyMerger.merge` including the load step
(missing module `rdf_construct.merge.merger`). -/
def merge (fs : FileSystem) (cfg : MergeConfig) : MergeResult :=
  match loadSources fs 0 cfg.sources with
  | .error e => failedMerge e
  | .ok srcs => mergeSources srcs cfg.strategy cfg.ignore_predicates

/-- Turn split outputs into merge sources with 1-based positional
priorities. -/
def sourceGraphsOfOutputs : Nat → List (String × RDFGraph) → List SourceGraph
  | _, [] => []
  | i, p :: rest =>
    { graph := p.2, path := p.1, priority := i + 1 } ::
      sourceGraphsOfOutputs (i + 1) rest

/-- `owl:Class`. -/
def owlClass : Term := .uri "http://www.w3.org/2002/07/owl#Class"

/-- `rdfs:label`. -/
def labelPred : Term := .uri "http://www.w3.org/2000/01/rdf-schema#label"

/-- `rdfs:comment`. -/
def commentPred : Term := .uri "http://www.w3.org/2000/01/rdf-schema#comment"

/-- Hierarchy scenario: the root class. -/
def exRoot : Term := .uri "http://example.org/Root"

/-- Hierarchy scenario: direct subclass of the root. -/
def exChild : Term := .uri "http://example.org/Child"

/-- Hierarchy scenario: subclass of the child. -/
def exGrandchild : Term := .uri "http://example.org/Grandchild"

/-- Hierarchy scenario source graph: `Child subClassOf Root`,
`Grandchild subClassOf Child`. -/
def hierarchyGraph : RDFGraph :=
  [ ⟨exRoot, rdfType, owlClass⟩,
    ⟨exChild, rdfType, owlClass⟩,
    ⟨exChild, rdfsSubClassOf, exRoot⟩,
    ⟨exGrandchild, rdfType, owlClass⟩,
    ⟨exGrandchild, rdfsSubClassOf, exChild⟩ ]

/-- Hierarchy scenario: module "core" claiming the root class with
descendant expansion enabled. -/
def coreModule : ModuleDefinition :=
  { name := "core", output := "core.ttl", classes := [exRoot],
    include_descendants := true }

/-- Round-trip fixture: a class in the first namespace. -/
def ns1Class : Term := .uri "http://example.org/ns1#Class1"

/-- Round-trip fixture: a class in the second namespace. -/
def ns2Class : Term := .uri "http://example.org/ns2#Class2"

/-- Round-trip fixture: a two-namespace graph with a cross-namespace
reference. -/
def twoNsGraph : RDFGraph :=
  [ ⟨ns1Class, rdfType, owlClass⟩,
    ⟨ns2Class, rdfType, owlClass⟩,
    ⟨ns1Class, rdfsSubClassOf, ns2Class⟩ ]

/-- Round-trip fixture: one module per namespace. -/
def twoNsConfig : SplitConfig :=
  { source := "two_ns.ttl"
    output_dir := "split"
    modules :=
      [ { name := "ns1", output := "ns1.ttl",
          namespaces := ["http://example.org/ns1#"] },
        { name := "ns2", output := "ns2.ttl",
          namespaces := ["http://example.org/ns2#"] } ] }

/-- Conflict-resolution fixture: the low-priority value. -/
def lowValue : ConflictValue := ⟨.lit "Low" none none, "low.ttl", 1⟩

/-- Conflict-resolution fixture: the high-priority value. -/
def highValue : ConflictValue := ⟨.lit "High" none none, "high.ttl", 5⟩

/-- Conflict-resolution fixture: a two-value conflict on a label. -/
def sampleConflict : Conflict :=
  { subject := .uri "http://example.org/Test", predicate := labelPred,
    values := [lowValue, highValue], resolution := none }

/-- Non-overlapping merge fixture: first source. -/
def srcA : SourceGraph := ⟨[⟨ns1Class, rdfType, owlClass⟩], "a.ttl", 1⟩

/-- Non-overlapping merge fixture: second source. -/
def srcB : SourceGraph := ⟨[⟨ns2Class, rdfType, owlClass⟩], "b.ttl", 2⟩

/-- Migration fixture: the misspelt class identifier. -/
def buidingUri : Term := .uri "http://example.org/ont#Buiding"

/-- Migration fixture: a graph whose comment literal mentions the renamed
local name. -/
def typosGraph : RDFGraph :=
  [ ⟨buidingUri, rdfType, owlClass⟩,
    ⟨buidingUri, commentPred, .lit "Buiding is a typo!" none none⟩ ]

/-- Migration fixture: the rename map for the misspelt class. -/
def typosMap : List (String × String) :=
  [("http://example.org/ont#Buiding", "http://example.org/ont#Building")]

/-- Conflicting merge fixture: two sources disagreeing on one label. -/
def srcConflictA : SourceGraph :=
  ⟨[⟨.uri "http://example.org/Building", labelPred, .lit "Building" none none⟩],
   "core.ttl", 1⟩

/-- Conflicting merge fixture: the second, higher-priority source. -/
def srcConflictB : SourceGraph :=
  ⟨[⟨.uri "http://example.org/Building", labelPred, .lit "Structure" none none⟩],
   "ext.ttl", 2⟩

/-- Namespace-migration fixture: a graph in the old namespace. -/
def oldNsGraph : RDFGraph :=
  [⟨.uri "http://old/Thing", rdfType, owlClass⟩]

/-- Namespace-migration fixture: a degenerate remap table whose new
namespace extends the old one. -/
def nestedNsTable : List (String × String) := [("http://old/", "http://old/x/")]

/-- Namespace-migration fixture: the ordinary remap table of the spec
scenario. -/
def plainNsTable : List (String × String) := [("http://old/", "http://new/")]

/-- Error-handling fixture: a split configuration whose source file does
not exist in the (empty) file system. -/
def missingSplitConfig : SplitConfig :=
  { source := "nonexistent.ttl", output_dir := "output", modules := [] }

/-- Error-handling fixture: a merge configuration naming a missing file. -/
def missingMergeConfig : MergeConfig :=
  { sources := [{ path := "nonexistent.ttl" }] }

/-- Error-handling fixture: a split configuration with no modules and the
`error` unmatched strategy. -/
def errorStrategyConfig : SplitConfig :=
  { source := "two_ns.ttl", output_dir := "o", modules := []
    unmatched := { strategy := .error } }

/-- The entities no configured module claims. -/
def unmatchedEntitiesOf (g : RDFGraph) (ms : List ModuleDefinition) : List Term :=
  (graphEntities g).filter (fun e => decide (assign_entity g ms e = none))

/-! ## Helper lemmas -/

theorem applyUriMap_nil (t : Term) : applyUriMap [] t = t := by
  cases t <;> rfl

theorem migrateTriple_nil (t : Triple) : migrateTriple [] t = t := by
  simp [migrateTriple, applyUriMap_nil]

theorem applyUriMap_lit (uriMap : List (String × String)) (v : String)
    (dt lang : Option String) : applyUriMap uriMap (.lit v dt lang) = .lit v dt lang := rfl

theorem applyUriMap_key (uriMap : List (String × String)) (u w : String)
    (h : uriMap.lookup u = some w) : applyUriMap uriMap (.uri u) = .uri w := by
  simp [applyUriMap, h]

theorem applyUriMap_not_key (uriMap : List (String × String)) (u : String)
    (h : uriMap.lookup u = none) : applyUriMap uriMap (.uri u) = .uri u := by
  simp [applyUriMap, h]

theorem build_uri_map_nil (g : RDFGraph) :
    build_uri_map_from_namespaces g [] = [] := by
  simp [build_uri_map_from_namespaces]

theorem find?_decomp {α : Type} (p : α → Bool) (pre : List α) (a : α)
    (post : List α) (hpre : ∀ x ∈ pre, p x = false) (ha : p a = true) :
    (pre ++ a :: post).find? p = some a := by
  induction pre with
  | nil => simp [List.find?_cons, ha]
  | cons x xs ih =>
    rw [List.cons_append, List.find?_cons]
    have hx : p x = false := hpre x (by simp)
    simp only [hx]
    exact ih (fun y hy => hpre y (by simp [hy]))

theorem pickMaxPriority_mem : ∀ (l : List ConflictValue) (w : ConflictValue),
    pickMaxPriority l = some w → w ∈ l := by
  intro l
  induction l with
  | nil => intro w hw; simp [pickMaxPriority] at hw
  | cons a rest ih =>
    intro w hw
    simp only [pickMaxPriority] at hw
    cases hr : pickMaxPriority rest with
    | none => rw [hr] at hw; simp only [Option.some.injEq] at hw; simp [hw]
    | some u =>
      rw [hr] at hw
      simp only [Option.some.injEq] at hw
      by_cases hc : a.priority < u.priority
      · rw [if_pos hc, Option.some.injEq] at hw
        exact hw ▸ List.mem_cons_of_mem _ (ih u hr)
      · rw [if_neg hc, Option.some.injEq] at hw
        simp [hw]

theorem pickMaxPriority_first_max (l1 : List ConflictValue) (v : ConflictValue)
    (l2 : List ConflictValue)
    (hlt : ∀ w ∈ l1, w.priority < v.priority)
    (hle : ∀ w ∈ l2, w.priority ≤ v.priority) :
    pickMaxPriority (l1 ++ v :: l2) = some v := by
  induction l1 with
  | nil =>
    simp only [List.nil_append, pickMaxPriority]
    cases hp : pickMaxPriority l2 with
    | none => rfl
    | some w =>
      have hw : w ∈ l2 := pickMaxPriority_mem l2 w hp
      have hnlt : ¬v.priority < w.priority := Nat.not_lt.mpr (hle w hw)
      simp [hnlt]
  | cons a l1' ih =>
    have hrec : pickMaxPriority (l1' ++ v :: l2) = some v :=
      ih (fun w hw => hlt w (by simp [hw]))
    rw [List.cons_append]
    simp only [pickMaxPriority, hrec]
    rw [if_pos (hlt a (by simp))]

theorem dedupByValue_subset : ∀ (l : List ConflictValue), ∀ x ∈ dedupByValue l, x ∈ l := by
  intro l
  induction l using dedupByValue.induct with
  | case1 => intro x hx; simp [dedupByValue] at hx
  | case2 v rest ih =>
    intro x hx
    rw [dedupByValue] at hx
    rcases List.mem_cons.mp hx with rfl | hx2
    · simp
    · exact List.mem_cons_of_mem _ (List.mem_of_mem_filter (ih x hx2))

theorem valuesFor_mem_iff (s : SourceGraph) (a b x : Term) :
    x ∈ valuesFor s a b ↔ ∃ t ∈ s.graph, t.subj = a ∧ t.pred = b ∧ t.obj = x := by
  simp only [valuesFor, List.mem_dedup, List.mem_map, List.mem_filter,
    decide_eq_true_eq]
  constructor
  · rintro ⟨t, ⟨ht, hsp⟩, hobj⟩
    exact ⟨t, ht, hsp.1, hsp.2, hobj⟩
  · rintro ⟨t, ht, hs, hp, ho⟩
    exact ⟨t, ⟨ht, hs, hp⟩, ho⟩

theorem valuesFor_ne_nil_iff (s : SourceGraph) (a b : Term) :
    valuesFor s a b ≠ [] ↔ ∃ t ∈ s.graph, t.subj = a ∧ t.pred = b := by
  constructor
  · intro h
    obtain ⟨x, hx⟩ := List.exists_mem_of_ne_nil _ h
    obtain ⟨t, ht, hs, hp, _⟩ := (valuesFor_mem_iff s a b x).mp hx
    exact ⟨t, ht, hs, hp⟩
  · rintro ⟨t, ht, hs, hp⟩ hnil
    have hmem : t.obj ∈ valuesFor s a b :=
      (valuesFor_mem_iff s a b t.obj).mpr ⟨t, ht, hs, hp, rfl⟩
    simp [hnil] at hmem

/-! ## Claim theorems -/

/-- C10: renaming with an empty configuration (no namespace rules and no
entity mappings) is the identity - the operation succeeds, reports zero
total renames, and the returned graph contains exactly the input graph's
triples. -/
theorem rename_empty_config_identity (g : RDFGraph) :
    (OntologyRenamer.rename g {}).success = true ∧
    (OntologyRenamer.rename g {}).stats.total_renames = 0 ∧
    (OntologyRenamer.rename g {}).renamed_graph = g := by
  have hmap : RenameConfig.build_mappings {} g = [] := by
    simp [RenameConfig.build_mappings, build_uri_map_nil]
  refine ⟨rfl, ?_, ?_⟩
  · simp [OntologyRenamer.rename, hmap, RenameStats.total_renames, migrate,
      List.countP_eq_zero, applyUriMap_nil]
  · have hfun : migrateTriple ([] : List (String × String)) = id :=
      funext (fun t => migrateTriple_nil t)
    simp [OntologyRenamer.rename, hmap, migrate, hfun]

/-- C5: `migrate` rewrites only subjects, predicates and objects that are
identifiers present as keys of the URI map. The migrated graph rewrites
every triple componentwise; a literal object is byte-for-byte unchanged in
place (even when its text contains a renamed identifier's local name), and
every such occurrence is recorded as a literal mention in the result
rather than rewritten. -/
theorem migrate_preserves_literals (g : RDFGraph)
    (uriMap : List (String × String)) :
    (migrate g uriMap).success = true ∧
    (migrate g uriMap).migrated_graph.length = g.length ∧
    (∀ (v : String) (dt lang : Option String),
      applyUriMap uriMap (Term.lit v dt lang) = Term.lit v dt lang) ∧
    (∀ u w, uriMap.lookup u = some w →
      applyUriMap uriMap (Term.uri u) = Term.uri w) ∧
    (∀ u, uriMap.lookup u = none →
      applyUriMap uriMap (Term.uri u) = Term.uri u) ∧
    (∀ i (hi : i < g.length) (hi2 : i < (migrate g uriMap).migrated_graph.length),
      (migrate g uriMap).migrated_graph.get ⟨i, hi2⟩ =
        migrateTriple uriMap (g.get ⟨i, hi⟩)) ∧
    (∀ i (hi : i < g.length) (hi2 : i < (migrate g uriMap).migrated_graph.length)
        (v : String) (dt lang : Option String),
      (g.get ⟨i, hi⟩).obj = Term.lit v dt lang →
      ((migrate g uriMap).migrated_graph.get ⟨i, hi2⟩).obj = Term.lit v dt lang) ∧
    (∀ t ∈ g, ∀ (v : String) (dt lang : Option String), t.obj = Term.lit v dt lang →
      ∀ p ∈ uriMap, occursIn (localName p.1) v = true →
      (p.1, v) ∈ (migrate g uriMap).stats.literal_mentions) := by
  have hget : ∀ i (hi : i < g.length) (hi2 : i < (migrate g uriMap).migrated_graph.length),
      (migrate g uriMap).migrated_graph.get ⟨i, hi2⟩ =
        migrateTriple uriMap (g.get ⟨i, hi⟩) := by
    intro i hi hi2
    simp [migrate, List.get_eq_getElem, List.getElem_map]
  refine ⟨rfl, by simp [migrate], fun v dt lang => rfl,
    fun u w h => applyUriMap_key uriMap u w h,
    fun u h => applyUriMap_not_key uriMap u h, hget, ?_, ?_⟩
  · intro i hi hi2 v dt lang hlit
    rw [hget i hi hi2]
    rw [List.get_eq_getElem] at hlit
    simp [migrateTriple, hlit, applyUriMap_lit]
  · intro t ht v dt lang hlit p hp hocc
    show (p.1, v) ∈ literalMentions uriMap g
    refine List.mem_flatMap.mpr ⟨t, ht, ?_⟩
    simp only [hlit]
    exact List.mem_map.mpr ⟨p, List.mem_filter.mpr ⟨hp, hocc⟩, rfl⟩

/-- C3: resolving by the priority strategy selects the ConflictValue whose
source priority is the maximum of the conflict's values, and when several
values share that maximum the earliest value in the list wins; since
`conflictValuesFor` creates the values in configured source order, each
carrying the source reporting it and that source's priority, the earliest
value among the maxima is the one from the source earliest in the
configured source list. -/
theorem resolve_by_priority_max (c : Conflict) (l1 : List ConflictValue)
    (v : ConflictValue) (l2 : List ConflictValue)
    (hdec : c.values = l1 ++ v :: l2)
    (hlt : ∀ w ∈ l1, w.priority < v.priority)
    (hle : ∀ w ∈ l2, w.priority ≤ v.priority) :
    c.resolve_by_priority.resolution = some v ∧
    c.resolve_by_priority.is_resolved = true ∧
    (∀ w ∈ c.values, w.priority ≤ v.priority) ∧
    (∀ (srcs : List SourceGraph) (s p : Term) (cv : ConflictValue),
      cv ∈ conflictValuesFor srcs s p →
      ∃ sg ∈ srcs, sg.path = cv.path ∧ sg.priority = cv.priority ∧
        cv.value ∈ valuesFor sg s p) := by
  have hres : pickMaxPriority c.values = some v := by
    rw [hdec]; exact pickMaxPriority_first_max l1 v l2 hlt hle
  refine ⟨?_, ?_, ?_, ?_⟩
  · simp [Conflict.resolve_by_priority, hres]
  · simp [Conflict.resolve_by_priority, Conflict.is_resolved, hres]
  · intro w hw
    rw [hdec] at hw
    rcases List.mem_append.mp hw with h1 | h2
    · exact Nat.le_of_lt (hlt w h1)
    · rcases List.mem_cons.mp h2 with rfl | h3
      · exact Nat.le_refl _
      · exact hle w h3
  · intro srcs s p cv hcv
    have hcv2 : cv ∈ srcs.flatMap (fun sg =>
        (valuesFor sg s p).map (fun x => ⟨x, sg.path, sg.priority⟩)) :=
      dedupByValue_subset _ cv hcv
    obtain ⟨sg, hsg, hin⟩ := List.mem_flatMap.mp hcv2
    obtain ⟨x, hx, heq⟩ := List.mem_map.mp hin
    subst heq
    exact ⟨sg, hsg, rfl, rfl, hx⟩

/-- Witness for C3: the priority strategy picks "High" (priority 5) over
"Low" (priority 1) in the sample conflict. -/
theorem resolve_by_priority_max_witness :
    sampleConflict.resolve_by_priority.resolution = some highValue :=
  (resolve_by_priority_max sampleConflict [lowValue] highValue [] rfl
    (by decide) (by decide)).1

/-- C8: for a module whose include_descendants flag is set and that
matched a class by name, every transitive subclass of that class via the
hierarchy relation is assigned to that module unless an earlier module in
declaration order claims it; in particular, in the scenario with
`Child subClassOf Root` and `Grandchild subClassOf Child` and a module
"core" claiming Root with descendants, Root, Child and Grandchild are all
assigned to "core". -/
theorem include_descendants_assigns_subtree (g : RDFGraph)
    (pre : List ModuleDefinition) (m : ModuleDefinition)
    (post : List ModuleDefinition) (c e : Term)
    (hdesc : m.include_descendants = true)
    (hc : c ∈ m.classes)
    (hsub : is_descendant g e c = true)
    (hpre : ∀ m2 ∈ pre, module_claims g m2 e = false) :
    assign_entity g (pre ++ m :: post) e = some m.name ∧
    (assign_entity hierarchyGraph [coreModule] exRoot = some "core" ∧
     assign_entity hierarchyGraph [coreModule] exChild = some "core" ∧
     assign_entity hierarchyGraph [coreModule] exGrandchild = some "core") := by
  constructor
  · have hdes : claimsDescendant g m e = true := by
      simp only [claimsDescendant, hdesc, Bool.true_and, List.any_eq_true]
      exact ⟨c, hc, hsub⟩
    have hm : module_claims g m e = true := by
      simp [module_claims, hdes]
    unfold assign_entity
    rw [find?_decomp _ pre m post hpre hm]
    rfl
  · exact ⟨by decide, by decide, by decide⟩

/-- Witness for C8: Grandchild, a depth-two transitive subclass of Root,
is assigned to "core". -/
theorem include_descendants_assigns_subtree_witness :
    assign_entity hierarchyGraph [coreModule] exGrandchild = some "core" :=
  (include_descendants_assigns_subtree hierarchyGraph [] coreModule [] exRoot
    exGrandchild (by decide) (by decide) (by decide) (by decide)).1

/-- Witness for C5: migrating the typos graph leaves the comment literal
untouched and records the mention of the renamed local name. -/
theorem migrate_preserves_literals_witness :
    (migrate typosGraph typosMap).success = true ∧
    ("http://example.org/ont#Buiding", "Buiding is a typo!") ∈
      (migrate typosGraph typosMap).stats.literal_mentions := by
  have h := migrate_preserves_literals typosGraph typosMap
  refine ⟨h.1, ?_⟩
  exact h.2.2.2.2.2.2.2
    ⟨buidingUri, commentPred, .lit "Buiding is a typo!" none none⟩ (by decide)
    "Buiding is a typo!" none none rfl
    ("http://example.org/ont#Buiding", "http://example.org/ont#Building")
    (by decide) (by decide)

theorem mem_allTriples (srcs : List SourceGraph) (s : SourceGraph) (t : Triple)
    (hs : s ∈ srcs) (ht : t ∈ s.graph) : t ∈ allTriples srcs := by
  simp only [allTriples, List.mem_dedup, List.mem_flatMap]
  exact ⟨s, hs, ht⟩

theorem detect_conflicts_shape (srcs : List SourceGraph) (ign : List Term)
    (c : Conflict) (hc : c ∈ detect_conflicts srcs ign) :
    c.resolution = none ∧
    c.values = conflictValuesFor srcs c.subject c.predicate := by
  obtain ⟨sp, _, heq⟩ := List.mem_map.mp hc
  rw [← heq]
  exact ⟨rfl, rfl⟩

/-- C6: merging with the `mark_all` strategy resolves nothing - every
triple from every competing value is retained in the merged graph, a
begin/end conflict marker pair identifying subject and predicate is
emitted for every conflict, `unresolved_conflicts` contains every detected
conflict, and the merge still completes with success. -/
theorem merge_mark_all_retains_all (srcs : List SourceGraph) (ign : List Term) :
    (mergeSources srcs .mark_all ign).success = true ∧
    (mergeSources srcs .mark_all ign).unresolved_conflicts =
      (mergeSources srcs .mark_all ign).conflicts ∧
    (mergeSources srcs .mark_all ign).conflicts = detect_conflicts srcs ign ∧
    (∀ c ∈ (mergeSources srcs .mark_all ign).conflicts, c.resolution = none) ∧
    (∀ c ∈ (mergeSources srcs .mark_all ign).conflicts, ∀ v ∈ c.values,
      Triple.mk c.subject c.predicate v.value ∈
        (mergeSources srcs .mark_all ign).merged_graph) ∧
    (∀ c ∈ (mergeSources srcs .mark_all ign).conflicts,
      (generate_conflict_marker c.subject c.predicate,
       generate_conflict_end_marker c.subject c.predicate) ∈
        (mergeSources srcs .mark_all ign).conflict_markers) ∧
    (∀ s ∈ srcs, ∀ t ∈ s.graph, t ∈ (mergeSources srcs .mark_all ign).merged_graph) := by
  refine ⟨rfl, rfl, rfl, ?_, ?_, ?_, ?_⟩
  · intro c hc
    exact (detect_conflicts_shape srcs ign c hc).1
  · intro c hc v hv
    have hvals := (detect_conflicts_shape srcs ign c hc).2
    rw [hvals] at hv
    have hv2 : v ∈ srcs.flatMap (fun sg =>
        (valuesFor sg c.subject c.predicate).map
          (fun x => ⟨x, sg.path, sg.priority⟩)) :=
      dedupByValue_subset _ v hv
    obtain ⟨sg, hsg, hin⟩ := List.mem_flatMap.mp hv2
    obtain ⟨x, hx, heq⟩ := List.mem_map.mp hin
    obtain ⟨t, ht, hs, hp, ho⟩ := (valuesFor_mem_iff sg c.subject c.predicate x).mp hx
    have hteq : Triple.mk c.subject c.predicate v.value = t := by
      subst heq
      cases t
      simp only at hs hp ho
      simp [hs, hp, ho]
    show Triple.mk c.subject c.predicate v.value ∈ allTriples srcs
    rw [hteq]
    exact mem_allTriples srcs sg t hsg ht
  · intro c hc
    exact List.mem_map.mpr ⟨c, hc, rfl⟩
  · intro s hs t ht
    show t ∈ allTriples srcs
    exact mem_allTriples srcs s t hs ht

/-- Witness for C6: merging the two conflicting label sources with
`mark_all` succeeds and both competing triples are retained. -/
theorem merge_mark_all_retains_all_witness :
    (mergeSources [srcConflictA, srcConflictB] .mark_all []).success = true ∧
    Triple.mk (.uri "http://example.org/Building") labelPred
        (.lit "Building" none none) ∈
      (mergeSources [srcConflictA, srcConflictB] .mark_all []).merged_graph ∧
    Triple.mk (.uri "http://example.org/Building") labelPred
        (.lit "Structure" none none) ∈
      (mergeSources [srcConflictA, srcConflictB] .mark_all []).merged_graph := by
  have h := merge_mark_all_retains_all [srcConflictA, srcConflictB] []
  refine ⟨h.1, ?_, ?_⟩
  · exact h.2.2.2.2.2.2 srcConflictA (by decide)
      (Triple.mk (.uri "http://example.org/Building") labelPred
        (.lit "Building" none none)) (by decide)
  · exact h.2.2.2.2.2.2 srcConflictB (by decide)
      (Triple.mk (.uri "http://example.org/Building") labelPred
        (.lit "Structure" none none)) (by decide)

theorem splitGraph_success_fields (cfg : SplitConfig) (g : RDFGraph)
    (hok : (splitGraph cfg g).success = true) :
    (splitGraph cfg g).entity_assignments =
      (graphEntities g).filterMap (fun e =>
        (assign_entity g cfg.modules e).map (fun n => (e, n))) ∧
    (splitGraph cfg g).unmatched_entities = unmatchedEntitiesOf g cfg.modules := by
  by_cases hcond : cfg.unmatched.strategy = UnmatchedKind.error ∧
      (graphEntities g).filter
        (fun e => decide (assign_entity g cfg.modules e = none)) ≠ []
  · exfalso
    unfold splitGraph at hok
    rw [if_pos hcond] at hok
    simp at hok
  · unfold splitGraph
    rw [if_neg hcond]
    exact ⟨rfl, rfl⟩

theorem mem_assignments_iff (g : RDFGraph) (ms : List ModuleDefinition)
    (e : Term) (n : String) :
    (e, n) ∈ (graphEntities g).filterMap (fun x =>
      (assign_entity g ms x).map (fun k => (x, k))) ↔
    e ∈ graphEntities g ∧ assign_entity g ms e = some n := by
  rw [List.mem_filterMap]
  constructor
  · rintro ⟨a, ha, hmap⟩
    cases hass : assign_entity g ms a with
    | none => rw [hass] at hmap; simp at hmap
    | some k =>
      rw [hass] at hmap
      simp only [Option.map_some', Option.some.injEq, Prod.mk.injEq] at hmap
      obtain ⟨rfl, rfl⟩ := hmap
      exact ⟨ha, hass⟩
  · rintro ⟨ha, hass⟩
    exact ⟨e, ha, by rw [hass]; rfl⟩

/-- C2: for every split configuration and every entity of the source
graph, the split assigns the entity to exactly one module or to the
unmatched bucket; modules are evaluated in configuration order, the first
module that claims the entity owns it, and no entity is assigned to two
modules. -/
theorem split_assignment_partition (cfg : SplitConfig) (g : RDFGraph) (e : Term)
    (hok : (splitGraph cfg g).success = true)
    (he : e ∈ graphEntities g) :
    ((∃ n, (e, n) ∈ (splitGraph cfg g).entity_assignments) ∨
      e ∈ (splitGraph cfg g).unmatched_entities) ∧
    (¬((∃ n, (e, n) ∈ (splitGraph cfg g).entity_assignments) ∧
       e ∈ (splitGraph cfg g).unmatched_entities)) ∧
    (∀ n1 n2, (e, n1) ∈ (splitGraph cfg g).entity_assignments →
      (e, n2) ∈ (splitGraph cfg g).entity_assignments → n1 = n2) ∧
    (∀ n, (e, n) ∈ (splitGraph cfg g).entity_assignments →
      ∃ m ∈ cfg.modules, m.name = n ∧ module_claims g m e = true) ∧
    (∀ pre m post, cfg.modules = pre ++ m :: post →
      module_claims g m e = true →
      (∀ m2 ∈ pre, module_claims g m2 e = false) →
      (e, m.name) ∈ (splitGraph cfg g).entity_assignments) := by
  obtain ⟨hasg, hunm⟩ := splitGraph_success_fields cfg g hok
  rw [hasg, hunm]
  have hunm_iff : e ∈ unmatchedEntitiesOf g cfg.modules ↔
      assign_entity g cfg.modules e = none := by
    simp [unmatchedEntitiesOf, List.mem_filter, he]
  refine ⟨?_, ?_, ?_, ?_, ?_⟩
  · cases hass : assign_entity g cfg.modules e with
    | none => exact Or.inr (hunm_iff.mpr hass)
    | some n =>
      exact Or.inl ⟨n, (mem_assignments_iff g cfg.modules e n).mpr ⟨he, hass⟩⟩
  · rintro ⟨⟨n, hn⟩, hu⟩
    have h1 := ((mem_assignments_iff g cfg.modules e n).mp hn).2
    have h2 := hunm_iff.mp hu
    rw [h1] at h2
    cases h2
  · intro n1 n2 h1 h2
    have e1 := ((mem_assignments_iff g cfg.modules e n1).mp h1).2
    have e2 := ((mem_assignments_iff g cfg.modules e n2).mp h2).2
    rw [e1] at e2
    cases e2
    rfl
  · intro n hn
    have hass := ((mem_assignments_iff g cfg.modules e n).mp hn).2
    unfold assign_entity at hass
    obtain ⟨m, hfind, hname⟩ := Option.map_eq_some'.mp hass
    have hclaims := List.find?_some hfind
    exact ⟨m, List.mem_of_find?_eq_some hfind, hname, hclaims⟩
  · intro pre m post hmods hm hpre
    refine (mem_assignments_iff g cfg.modules e m.name).mpr ⟨he, ?_⟩
    unfold assign_entity
    rw [hmods, find?_decomp _ pre m post hpre hm]
    rfl

/-- Witness for C2: in the two-namespace split, Class1 is assigned to
exactly module "ns1". -/
theorem split_assignment_partition_witness :
    (ns1Class, "ns1") ∈ (splitGraph twoNsConfig twoNsGraph).entity_assignments := by
  have h := split_assignment_partition twoNsConfig twoNsGraph ns1Class
    (by decide) (by decide)
  exact h.2.2.2.2
    [] { name := "ns1", output := "ns1.ttl", namespaces := ["http://example.org/ns1#"] }
    [{ name := "ns2", output := "ns2.ttl", namespaces := ["http://example.org/ns2#"] }]
    rfl (by decide) (by decide)

theorem loadSources_error_of_missing (fs : FileSystem) :
    ∀ (l : List SourceConfig) (i : Nat) (sc : SourceConfig), sc ∈ l →
    loadGraph fs sc.path = none → ∃ e, loadSources fs i l = .error e := by
  intro l
  induction l with
  | nil => intro i sc h; simp at h
  | cons a rest ih =>
    intro i sc hmem hnone
    rcases List.mem_cons.mp hmem with rfl | h2
    · refine ⟨"Failed to load source: " ++ sc.path ++ " not found", ?_⟩
      simp [loadSources, loadSource, hnone]
    · cases hload : loadSource fs i a with
      | error e => exact ⟨e, by simp [loadSources, hload]⟩
      | ok s =>
        obtain ⟨e, he⟩ := ih (i + 1) sc h2 hnone
        exact ⟨e, by simp [loadSources, hload, he]⟩

/-- C9: every fatal condition - a missing source file during merge or
split, and unmatched entities under the `error` unmatched strategy (which
carries the full list of offending entities) - is returned as a structured
failure with success=false and an error message; the operations are total
functions into their result types, so no exception escapes the core. -/
theorem fatal_conditions_structured_failure :
    (∀ (fs : FileSystem) (cfg : SplitConfig), loadGraph fs cfg.source = none →
      (split fs cfg).success = false ∧ (split fs cfg).error ≠ none) ∧
    (∀ (fs : FileSystem) (cfg : MergeConfig) (sc : SourceConfig),
      sc ∈ cfg.sources → loadGraph fs sc.path = none →
      (merge fs cfg).success = false ∧ (merge fs cfg).error ≠ none) ∧
    (∀ (cfg : SplitConfig) (g : RDFGraph),
      cfg.unmatched.strategy = UnmatchedKind.error →
      unmatchedEntitiesOf g cfg.modules ≠ [] →
      (splitGraph cfg g).success = false ∧ (splitGraph cfg g).error ≠ none ∧
      (splitGraph cfg g).unmatched_entities = unmatchedEntitiesOf g cfg.modules) := by
  refine ⟨?_, ?_, ?_⟩
  · intro fs cfg h
    unfold split
    rw [h]
    exact ⟨rfl, by simp⟩
  · intro fs cfg sc hmem h
    obtain ⟨e, he⟩ := loadSources_error_of_missing fs cfg.sources 0 sc hmem h
    unfold merge
    rw [he]
    exact ⟨rfl, by simp [failedMerge]⟩
  · intro cfg g hstrat hne
    unfold splitGraph
    rw [if_pos ⟨hstrat, hne⟩]
    exact ⟨rfl, by simp, rfl⟩

/-- Witness for C9: a missing source file fails split and merge with a
structured failure, and the error unmatched strategy fails the split. -/
theorem fatal_conditions_structured_failure_witness :
    (split [] missingSplitConfig).success = false ∧
    (merge [] missingMergeConfig).success = false ∧
    (splitGraph errorStrategyConfig twoNsGraph).success = false := by
  have h := fatal_conditions_structured_failure
  refine ⟨(h.1 [] missingSplitConfig rfl).1, ?_, ?_⟩
  · exact (h.2.1 [] missingMergeConfig { path := "nonexistent.ttl" }
      (List.mem_singleton.mpr rfl) rfl).1
  · exact (h.2.2 errorStrategyConfig twoNsGraph rfl (by decide)).1

theorem sublist_pair_decomp {α : Type} (a b : α) :
    ∀ (l : List α), List.Sublist [a, b] l →
    ∃ pre mid post, l = pre ++ a :: mid ++ b :: post := by
  intro l h
  induction l with
  | nil => cases h
  | cons x xs ih =>
    cases h with
    | cons _ h2 =>
      obtain ⟨pre, mid, post, rfl⟩ := ih h2
      exact ⟨x :: pre, mid, post, rfl⟩
    | cons₂ _ h2 =>
      obtain ⟨mid, post, rfl⟩ := List.append_of_mem (List.singleton_sublist.mp h2)
      exact ⟨[], mid, post, rfl⟩

theorem flatMap_congr_mem {α β : Type} (l : List α) (f h : α → List β)
    (heq : ∀ x ∈ l, f x = h x) : l.flatMap f = l.flatMap h := by
  induction l with
  | nil => rfl
  | cons x rest ih =>
    rw [List.flatMap_cons, List.flatMap_cons, heq x (by simp),
      ih (fun y hy => heq y (by simp [hy]))]

theorem perm_flatMap_filter_key {α γ : Type} [DecidableEq γ] (key : α → γ) :
    ∀ (ks : List γ) (g : List α), ks.Nodup → (∀ t ∈ g, key t ∈ ks) →
    List.Perm (ks.flatMap (fun k => g.filter (fun t => decide (key t = k)))) g := by
  intro ks
  induction ks with
  | nil =>
    intro g _ hcov
    cases g with
    | nil => simp
    | cons t ts => exact absurd (hcov t (by simp)) (by simp)
  | cons k ks ih =>
    intro g hnd hcov
    rw [List.flatMap_cons]
    have hknotin : k ∉ ks := (List.nodup_cons.mp hnd).1
    have hrw : ks.flatMap (fun k2 => g.filter (fun t => decide (key t = k2))) =
        ks.flatMap (fun k2 => (g.filter (fun t => !decide (key t = k))).filter
          (fun t => decide (key t = k2))) := by
      refine flatMap_congr_mem ks _ _ (fun k2 hk2 => ?_)
      rw [List.filter_filter]
      refine (List.filter_congr (fun t _ => ?_)).symm
      by_cases hkt : key t = k2
      · have hne : ¬k2 = k := fun heq => hknotin (heq ▸ hk2)
        have hne2 : ¬key t = k := by rw [hkt]; exact hne
        simp [hkt, hne, hne2]
      · simp [hkt]
    rw [hrw]
    have hcov2 : ∀ t ∈ g.filter (fun t => !decide (key t = k)), key t ∈ ks := by
      intro t ht
      obtain ⟨htg, hn⟩ := List.mem_filter.mp ht
      have := hcov t htg
      rcases List.mem_cons.mp this with hkk | hks
      · simp [hkk] at hn
      · exact hks
    have hperm := ih (g.filter (fun t => !decide (key t = k)))
      (List.nodup_cons.mp hnd).2 hcov2
    exact List.Perm.trans (List.Perm.append_left _ hperm)
      (List.filter_append_perm _ g)

theorem sourceGraphsOfOutputs_flat : ∀ (i : Nat) (outs : List (String × RDFGraph)),
    (sourceGraphsOfOutputs i outs).flatMap (fun sg => sg.graph) =
      outs.flatMap (fun p => p.2) := by
  intro i outs
  induction outs generalizing i with
  | nil => rfl
  | cons p rest ih =>
    simp only [sourceGraphsOfOutputs, List.flatMap_cons]
    rw [ih (i + 1)]

theorem mem_sourceGraphsOfOutputs : ∀ (i : Nat) (outs : List (String × RDFGraph))
    (sg : SourceGraph), sg ∈ sourceGraphsOfOutputs i outs →
    ∃ p ∈ outs, sg.graph = p.2 := by
  intro i outs
  induction outs generalizing i with
  | nil => intro sg h; simp [sourceGraphsOfOutputs] at h
  | cons p rest ih =>
    intro sg h
    simp only [sourceGraphsOfOutputs] at h
    rcases List.mem_cons.mp h with rfl | h2
    · exact ⟨p, by simp, rfl⟩
    · obtain ⟨q, hq, hgr⟩ := ih (i + 1) sg h2
      exact ⟨q, by simp [hq], hgr⟩

theorem valuesFor_filter_assign (g : RDFGraph) (ms : List ModuleDefinition)
    (a b : Term) (k : Option String) (path : String) (pr : Nat)
    (h : valuesFor ⟨g.filter (fun t => decide (assign_entity g ms t.subj = k)),
          path, pr⟩ a b ≠ []) :
    k = assign_entity g ms a := by
  obtain ⟨t, ht, hs, _⟩ := (valuesFor_ne_nil_iff _ a b).mp h
  obtain ⟨_, hdec⟩ := List.mem_filter.mp ht
  have := of_decide_eq_true hdec
  rw [← this, hs]

theorem sourcesWith_filter_le_one (g : RDFGraph) (ms : List ModuleDefinition)
    (a b : Term) :
    ∀ (nks : List (String × Option String)) (i : Nat),
    (nks.map (fun nk => nk.2)).Nodup →
    ((sourceGraphsOfOutputs i (nks.map (fun nk =>
        (nk.1, g.filter (fun t => decide (assign_entity g ms t.subj = nk.2)))))).filter
      (fun sg => decide (valuesFor sg a b ≠ []))).length ≤ 1 := by
  intro nks
  induction nks with
  | nil => intro i _; simp [sourceGraphsOfOutputs]
  | cons nk rest ih =>
    intro i hnd
    rw [List.map_cons]
    simp only [sourceGraphsOfOutputs]
    rw [List.filter_cons]
    by_cases hp : valuesFor ⟨g.filter (fun t =>
        decide (assign_entity g ms t.subj = nk.2)), nk.1, i + 1⟩ a b ≠ []
    · have hk : nk.2 = assign_entity g ms a :=
        valuesFor_filter_assign g ms a b nk.2 nk.1 (i + 1) hp
      have hrest : (sourceGraphsOfOutputs (i + 1) (rest.map (fun nk2 =>
          (nk2.1, g.filter (fun t =>
            decide (assign_entity g ms t.subj = nk2.2)))))).filter
          (fun sg => decide (valuesFor sg a b ≠ [])) = [] := by
        rw [List.filter_eq_nil_iff]
        intro sg hsg
        obtain ⟨p, hpmem, hgr⟩ := mem_sourceGraphsOfOutputs _ _ sg hsg
        obtain ⟨nk2, hnk2, hpeq⟩ := List.mem_map.mp hpmem
        intro hdec
        have hne : valuesFor sg a b ≠ [] := of_decide_eq_true hdec
        have hgr2 : sg.graph = g.filter (fun t =>
            decide (assign_entity g ms t.subj = nk2.2)) := by
          rw [hgr, ← hpeq]
        have hk2 : nk2.2 = assign_entity g ms a := by
          refine valuesFor_filter_assign g ms a b nk2.2 sg.path sg.priority ?_
          have : sg = ⟨g.filter (fun t =>
              decide (assign_entity g ms t.subj = nk2.2)), sg.path, sg.priority⟩ := by
            cases sg
            simp only at hgr2
            simp [hgr2]
          rw [← this]
          exact hne
        have : nk.2 ∈ rest.map (fun nk2 => nk2.2) :=
          List.mem_map.mpr ⟨nk2, hnk2, by rw [hk2, ← hk]⟩
        exact (List.nodup_cons.mp hnd).1 this
      simp only [decide_eq_true hp, if_true, hrest]
      simp
    · have hcond : decide (valuesFor ⟨g.filter (fun t =>
          decide (assign_entity g ms t.subj = nk.2)), nk.1, i + 1⟩ a b ≠ []) = false := by
        simpa using hp
      rw [if_neg (by simp [hcond])]
      exact ih (i + 1) (List.nodup_cons.mp hnd).2

theorem isConflict_false_of_le_one (srcs : List SourceGraph) (a b : Term)
    (h : (sourcesWith srcs a b).length ≤ 1) : isConflict srcs a b = false := by
  simp only [isConflict]
  have : decide (2 ≤ (sourcesWith srcs a b).length) = false := by
    simp only [decide_eq_false_iff_not]
    omega
  rw [this, Bool.false_and]

theorem detect_conflicts_eq_nil_of (srcs : List SourceGraph) (ign : List Term)
    (h : ∀ a b : Term, isConflict srcs a b = false) :
    detect_conflicts srcs ign = [] := by
  unfold detect_conflicts
  rw [List.filter_eq_nil_iff.mpr (fun sp _ => by simp [h sp.1 sp.2])]
  rfl

theorem mergeSources_priority_no_conflicts (srcs : List SourceGraph)
    (ign : List Term) (h : detect_conflicts srcs ign = []) :
    (mergeSources srcs .priority ign).merged_graph = allTriples srcs ∧
    (mergeSources srcs .priority ign).success = true := by
  constructor
  · simp [mergeSources, h]
  · rfl

theorem isConflict_cons (srcs : List SourceGraph) (a b : Term) (s0 : SourceGraph)
    (rest : List SourceGraph) (hw : sourcesWith srcs a b = s0 :: rest) :
    isConflict srcs a b =
      (decide (2 ≤ (s0 :: rest).length) &&
        !rest.all (fun s2 => sameValueSet (valuesFor s2 a b) (valuesFor s0 a b))) := by
  simp only [isConflict, hw]

/-- C4: when no (subject, predicate) pair receives differing object values
from two or more sources, detect_conflicts returns an empty list and the
merge yields the plain union of all triples; moreover every Conflict that
is ever emitted has at least two contributing sources whose value sets
disagree, so a pair appearing in only one source, or on whose value all
contributing sources agree, never produces a Conflict. -/
theorem detect_no_conflicts_of_agreement (srcs : List SourceGraph) (ign : List Term)
    (hagree : ∀ (pre : List SourceGraph) (s1 : SourceGraph) (mid : List SourceGraph)
        (s2 : SourceGraph) (post : List SourceGraph),
      srcs = pre ++ s1 :: mid ++ s2 :: post →
      ∀ (a b v w : Term),
        Triple.mk a b v ∈ s1.graph → Triple.mk a b w ∈ s2.graph → v = w) :
    detect_conflicts srcs ign = [] ∧
    (mergeSources srcs .priority ign).merged_graph = allTriples srcs ∧
    (mergeSources srcs .priority ign).success = true ∧
    (∀ (srcs2 : List SourceGraph) (ign2 : List Term) (c : Conflict),
      c ∈ detect_conflicts srcs2 ign2 →
      2 ≤ (sourcesWith srcs2 c.subject c.predicate).length ∧
      ∃ sg1 ∈ sourcesWith srcs2 c.subject c.predicate,
        ∃ sg2 ∈ sourcesWith srcs2 c.subject c.predicate,
          ∃ x, x ∈ valuesFor sg1 c.subject c.predicate ∧
            x ∉ valuesFor sg2 c.subject c.predicate) := by
  have hconf : ∀ a b : Term, isConflict srcs a b = false := by
    intro a b
    cases hw : sourcesWith srcs a b with
    | nil => simp [isConflict, hw]
    | cons s0 rest =>
      rw [isConflict_cons srcs a b s0 rest hw]
      have hvals : ∀ s2 ∈ rest,
          sameValueSet (valuesFor s2 a b) (valuesFor s0 a b) = true := by
        intro s2 hs2
        have hs0mem : s0 ∈ sourcesWith srcs a b := by rw [hw]; simp
        have hs2mem : s2 ∈ sourcesWith srcs a b := by rw [hw]; simp [hs2]
        have hs0ne : valuesFor s0 a b ≠ [] :=
          of_decide_eq_true (List.mem_filter.mp hs0mem).2
        have hs2ne : valuesFor s2 a b ≠ [] :=
          of_decide_eq_true (List.mem_filter.mp hs2mem).2
        have hsub : List.Sublist [s0, s2] srcs := by
          have h1 : List.Sublist [s0, s2] (s0 :: rest) :=
            List.Sublist.cons₂ s0 (List.singleton_sublist.mpr hs2)
          have h2 : List.Sublist (sourcesWith srcs a b) srcs :=
            List.filter_sublist srcs
          rw [hw] at h2
          exact h1.trans h2
        obtain ⟨pre, mid, post, hdecomp⟩ := sublist_pair_decomp s0 s2 srcs hsub
        have hagree2 : ∀ v w : Term,
            v ∈ valuesFor s0 a b → w ∈ valuesFor s2 a b → v = w := by
          intro v w hv hw2
          obtain ⟨t0, ht0, hts, htp, hto⟩ := (valuesFor_mem_iff s0 a b v).mp hv
          obtain ⟨t2, ht2, hts2, htp2, hto2⟩ := (valuesFor_mem_iff s2 a b w).mp hw2
          refine hagree pre s0 mid s2 post hdecomp a b v w ?_ ?_
          · rw [← hts, ← htp, ← hto]; exact ht0
          · rw [← hts2, ← htp2, ← hto2]; exact ht2
        simp only [sameValueSet, Bool.and_eq_true, decide_eq_true_eq]
        obtain ⟨v0, hv0⟩ := List.exists_mem_of_ne_nil _ hs0ne
        obtain ⟨v2, hv2⟩ := List.exists_mem_of_ne_nil _ hs2ne
        constructor
        · intro x hx
          have hx0 : v0 = x := hagree2 v0 x hv0 hx
          rw [← hx0]; exact hv0
        · intro x hx
          have hx2 : x = v2 := hagree2 x v2 hx hv2
          rw [hx2]; exact hv2
      have hall : rest.all (fun s2 =>
          sameValueSet (valuesFor s2 a b) (valuesFor s0 a b)) = true :=
        List.all_eq_true.mpr (fun s2 hs2 => hvals s2 hs2)
      rw [hall]
      simp
  have hdet : detect_conflicts srcs ign = [] :=
    detect_conflicts_eq_nil_of srcs ign hconf
  have hmerge := mergeSources_priority_no_conflicts srcs ign hdet
  refine ⟨hdet, hmerge.1, hmerge.2, ?_⟩
  intro srcs2 ign2 c hc
  obtain ⟨sp, hsp, heq⟩ := List.mem_map.mp hc
  have hfilter := List.mem_filter.mp hsp
  have hconf2 : isConflict srcs2 sp.1 sp.2 = true := by
    have hx := hfilter.2
    simp only [Bool.and_eq_true] at hx
    exact hx.2
  have hsubj : c.subject = sp.1 := by rw [← heq]
  have hpred : c.predicate = sp.2 := by rw [← heq]
  rw [hsubj, hpred]
  cases hw : sourcesWith srcs2 sp.1 sp.2 with
  | nil =>
    have hfalse : isConflict srcs2 sp.1 sp.2 = false := by
      simp [isConflict, hw]
    rw [hfalse] at hconf2
    cases hconf2
  | cons s0 rest =>
    rw [isConflict_cons srcs2 sp.1 sp.2 s0 rest hw] at hconf2
    simp only [Bool.and_eq_true, decide_eq_true_eq] at hconf2
    obtain ⟨hlen, hnall⟩ := hconf2
    have hallf : rest.all (fun s2 =>
        sameValueSet (valuesFor s2 sp.1 sp.2) (valuesFor s0 sp.1 sp.2)) = false := by
      rw [Bool.not_eq_true'] at hnall
      exact hnall
    obtain ⟨s2, hs2, hP⟩ := List.all_eq_false.mp hallf
    have hPf : sameValueSet (valuesFor s2 sp.1 sp.2) (valuesFor s0 sp.1 sp.2) = false := by
      cases hb : sameValueSet (valuesFor s2 sp.1 sp.2) (valuesFor s0 sp.1 sp.2) with
      | true => exact absurd hb hP
      | false => rfl
    have hs0mem : s0 ∈ s0 :: rest := by simp
    have hs2mem : s2 ∈ s0 :: rest := by simp [hs2]
    have hdis : (∃ x, x ∈ valuesFor s2 sp.1 sp.2 ∧ x ∉ valuesFor s0 sp.1 sp.2) ∨
        (∃ x, x ∈ valuesFor s0 sp.1 sp.2 ∧ x ∉ valuesFor s2 sp.1 sp.2) := by
      by_contra hcon
      push_neg at hcon
      obtain ⟨h1, h2⟩ := hcon
      have htrue : sameValueSet (valuesFor s2 sp.1 sp.2)
          (valuesFor s0 sp.1 sp.2) = true := by
        simp only [sameValueSet, Bool.and_eq_true, decide_eq_true_eq]
        exact ⟨h1, h2⟩
      rw [htrue] at hPf
      cases hPf
    constructor
    · exact hlen
    · rcases hdis with ⟨x, hxin, hxout⟩ | ⟨x, hxin, hxout⟩
      · exact ⟨s2, hs2mem, s0, hs0mem, x, hxin, hxout⟩
      · exact ⟨s0, hs0mem, s2, hs2mem, x, hxin, hxout⟩

/-- Witness for C4: two sources with disjoint subjects produce no
conflicts and merge to the plain union. -/
theorem detect_no_conflicts_of_agreement_witness :
    detect_conflicts [srcA, srcB] [] = [] ∧
    (mergeSources [srcA, srcB] .priority []).merged_graph =
      allTriples [srcA, srcB] := by
  have h := detect_no_conflicts_of_agreement [srcA, srcB] [] ?hag
  · exact ⟨h.1, h.2.1⟩
  case hag =>
    intro pre s1 mid s2 post heq a b v w h1 h2
    have hlen := congrArg List.length heq
    simp [List.length_append] at hlen
    have hpre : pre = [] := List.eq_nil_of_length_eq_zero (by omega)
    have hmid : mid = [] := List.eq_nil_of_length_eq_zero (by omega)
    have hpost : post = [] := List.eq_nil_of_length_eq_zero (by omega)
    subst hpre hmid hpost
    simp only [List.nil_append, List.cons_append] at heq
    have hs1 : s1 = srcA := by
      have := congrArg (fun l => l.head?) heq
      simpa using this.symm
    have hs2 : s2 = srcB := by
      have := congrArg (fun l => l.tail.head?) heq
      simpa using this.symm
    subst hs1 hs2
    simp only [srcA] at h1
    simp only [srcB] at h2
    rw [List.mem_singleton] at h1 h2
    have ha1 : a = ns1Class := congrArg Triple.subj h1
    have ha2 : a = ns2Class := congrArg Triple.subj h2
    rw [ha1] at ha2
    exact absurd ha2 (by decide)

theorem lookup_filterMap_none {β : Type} (G : String → Option β)
    (l : List String) (u : String) (hG : G u = none) :
    (l.filterMap (fun x => (G x).map (fun w => (x, w)))).lookup u = none := by
  induction l with
  | nil => rfl
  | cons x rest ih =>
    cases hGx : G x with
    | none => simp only [List.filterMap_cons, hGx, Option.map_none']; exact ih
    | some w =>
      simp only [List.filterMap_cons, hGx, Option.map_some']
      have hne : ¬u = x := by
        intro h
        rw [h, hGx] at hG
        cases hG
      have hbeq : (u == x) = false := beq_eq_false_iff_ne.mpr hne
      simp [List.lookup, hbeq, ih]

theorem lookup_filterMap_keyed {β : Type} (G : String → Option β)
    (l : List String) (u : String) (hu : u ∈ l) :
    (l.filterMap (fun x => (G x).map (fun w => (x, w)))).lookup u = G u := by
  induction l with
  | nil => cases hu
  | cons x rest ih =>
    by_cases hex : x = u
    · subst hex
      cases hG : G x with
      | none =>
        simp only [List.filterMap_cons, hG, Option.map_none']
        exact lookup_filterMap_none G rest x hG
      | some w =>
        simp only [List.filterMap_cons, hG, Option.map_some']
        simp [List.lookup]
    · have hu2 : u ∈ rest := by
        rcases List.mem_cons.mp hu with rfl | h2
        · exact absurd rfl hex
        · exact h2
      cases hGx : G x with
      | none => simp only [List.filterMap_cons, hGx, Option.map_none']; exact ih hu2
      | some w =>
        simp only [List.filterMap_cons, hGx, Option.map_some']
        have hne : ¬u = x := fun h => hex h.symm
        have hbeq : (u == x) = false := beq_eq_false_iff_ne.mpr hne
        simp only [List.lookup, hbeq]
        exact ih hu2

theorem not_prefix_append {α : Type} (o n s : List α)
    (h1 : ¬ List.IsPrefix o n) (h2 : ¬ List.IsPrefix n o) :
    ¬ List.IsPrefix o (n ++ s) := by
  intro h
  have hn := List.prefix_append n s
  rcases List.prefix_or_prefix_of_prefix h hn with h3 | h4
  · exact h1 h3
  · exact h2 h4

theorem startsWithNs_iff (ns u : String) :
    startsWithNs ns u = true ↔ List.IsPrefix ns.data u.data := by
  unfold startsWithNs
  exact List.isPrefixOf_iff_prefix

theorem uriMapValueOf (g : RDFGraph) (table : List (String × String)) (u : String)
    (hu : u ∈ graphIdentifiers g) :
    (build_uri_map_from_namespaces g table).lookup u =
      (table.find? (fun p => startsWithNs p.1 u)).map
        (fun p => p.2 ++ suffixAfter p.1 u) := by
  unfold build_uri_map_from_namespaces
  have hrw : (fun x => (table.find? (fun p => startsWithNs p.1 x)).map
      (fun p => (x, p.2 ++ suffixAfter p.1 x))) =
      (fun x => ((table.find? (fun p => startsWithNs p.1 x)).map
        (fun p => p.2 ++ suffixAfter p.1 x)).map (fun w => (x, w))) := by
    funext x
    cases table.find? (fun p => startsWithNs p.1 x) <;> rfl
  rw [hrw]
  exact lookup_filterMap_keyed _ (graphIdentifiers g) u hu

theorem graphIdentifiers_migrate (g : RDFGraph) (m : List (String × String))
    (u2 : String) (h : u2 ∈ graphIdentifiers ((migrate g m).migrated_graph)) :
    ∃ u ∈ graphIdentifiers g, applyUriMap m (.uri u) = .uri u2 := by
  simp only [graphIdentifiers, List.mem_dedup, List.mem_filterMap,
    List.mem_flatMap] at h
  obtain ⟨tm, ⟨t2, ht2, htm⟩, huri⟩ := h
  simp only [migrate, List.mem_map] at ht2
  obtain ⟨t, ht, hmt⟩ := ht2
  have htm2 : tm = applyUriMap m t.subj ∨ tm = applyUriMap m t.pred ∨
      tm = applyUriMap m t.obj := by
    rw [← hmt] at htm
    simp only [migrateTriple, List.mem_cons, List.not_mem_nil, or_false] at htm
    exact htm
  have hpos : ∀ t0 : Term, tm = applyUriMap m t0 →
      (t0 ∈ ([t.subj, t.pred, t.obj] : List Term)) →
      ∃ u ∈ graphIdentifiers g, applyUriMap m (.uri u) = .uri u2 := by
    intro t0 heq hmem
    cases t0 with
    | uri u =>
      refine ⟨u, ?_, ?_⟩
      · simp only [graphIdentifiers, List.mem_dedup, List.mem_filterMap,
          List.mem_flatMap]
        exact ⟨.uri u, ⟨t, ht, hmem⟩, rfl⟩
      · rw [← heq]
        cases tm with
        | uri v => simp only [Term.uriValue?, Option.some.injEq] at huri; rw [huri]
        | blank b => simp [Term.uriValue?] at huri
        | lit v d l => simp [Term.uriValue?] at huri
    | blank b =>
      rw [heq] at huri
      simp [applyUriMap, Term.uriValue?] at huri
    | lit v d l =>
      rw [heq] at huri
      simp [applyUriMap, Term.uriValue?] at huri
  rcases htm2 with h1 | h1 | h1
  · exact hpos t.subj h1 (by simp)
  · exact hpos t.pred h1 (by simp)
  · exact hpos t.obj h1 (by simp)

/-- Counterexample for C7: with the remap table sending "http://old/" to
"http://old/x/" - a new namespace that extends the old one - the migrated
graph still contains a triple referencing an identifier starting with the
old namespace, so the claim as universally stated fails. -/
theorem namespace_remap_counterexample :
    graphReferencesNs
      (migrate oldNsGraph
        (build_uri_map_from_namespaces oldNsGraph nestedNsTable)).migrated_graph
      "http://old/" = true := by
  decide

/-- C7 (amended): `build_uri_map_from_namespaces` maps every identifier of
the graph that starts with an old namespace of the table to the matched
new namespace followed by the same local suffix and, provided no old
namespace of the table is a prefix of a new namespace or vice versa (the
condition the counterexample shows is needed), migrating with the
resulting map produces a graph with zero references to identifiers
starting with any old namespace. -/
theorem namespace_remap_clears_old_ns (g : RDFGraph)
    (table : List (String × String))
    (hdiv : ∀ p1 ∈ table, ∀ p2 ∈ table,
      ¬ List.IsPrefix p1.1.data p2.2.data ∧ ¬ List.IsPrefix p2.2.data p1.1.data) :
    (∀ u ∈ graphIdentifiers g, (∃ p ∈ table, startsWithNs p.1 u = true) →
      ∃ q ∈ table, ∃ suffix : List Char, u.data = q.1.data ++ suffix ∧
        (build_uri_map_from_namespaces g table).lookup u =
          some (q.2 ++ String.mk suffix)) ∧
    (∀ p ∈ table, graphReferencesNs
      (migrate g (build_uri_map_from_namespaces g table)).migrated_graph
      p.1 = false) := by
  have hmapsto : ∀ u ∈ graphIdentifiers g,
      (∃ p ∈ table, startsWithNs p.1 u = true) →
      ∃ q ∈ table, ∃ suffix : List Char, u.data = q.1.data ++ suffix ∧
        (build_uri_map_from_namespaces g table).lookup u =
          some (q.2 ++ String.mk suffix) := by
    rintro u hu ⟨p, hp, hpre⟩
    cases hfind : table.find? (fun q => startsWithNs q.1 u) with
    | none =>
      exfalso
      have hnone := List.find?_eq_none.mp hfind p hp
      rw [hpre] at hnone
      exact hnone rfl
    | some q =>
      have hq : q ∈ table := List.mem_of_find?_eq_some hfind
      have hqpre := List.find?_some hfind
      obtain ⟨suffix, hsuff⟩ := (startsWithNs_iff q.1 u).mp hqpre
      refine ⟨q, hq, suffix, hsuff.symm, ?_⟩
      rw [uriMapValueOf g table u hu, hfind]
      simp only [Option.map_some', Option.some.injEq]
      congr 1
      unfold suffixAfter
      rw [← hsuff]
      congr 1
      exact List.drop_left q.1.data suffix
  refine ⟨hmapsto, ?_⟩
  intro p hp
  unfold graphReferencesNs
  rw [List.any_eq_false]
  intro u2 hu2 hstart
  obtain ⟨u, hu, happly⟩ := graphIdentifiers_migrate g _ u2 hu2
  cases hlok : (build_uri_map_from_namespaces g table).lookup u with
  | some w =>
    have hap : applyUriMap (build_uri_map_from_namespaces g table) (.uri u) =
        .uri w := applyUriMap_key _ u w hlok
    rw [hap] at happly
    injection happly with hwu
    have hGu := uriMapValueOf g table u hu
    rw [hlok] at hGu
    cases hfind : table.find? (fun q => startsWithNs q.1 u) with
    | none => rw [hfind] at hGu; simp at hGu
    | some q =>
      rw [hfind] at hGu
      simp only [Option.map_some', Option.some.injEq] at hGu
      have hq : q ∈ table := List.mem_of_find?_eq_some hfind
      subst hwu
      rw [hGu] at hstart
      have hpre2 := (startsWithNs_iff p.1 _).mp hstart
      rw [String.data_append] at hpre2
      have hd := hdiv p hp q hq
      exact not_prefix_append p.1.data q.2.data _ hd.1 hd.2 hpre2
  | none =>
    have hap : applyUriMap (build_uri_map_from_namespaces g table) (.uri u) =
        .uri u := applyUriMap_not_key _ u hlok
    rw [hap] at happly
    injection happly with hwu
    subst hwu
    obtain ⟨q, hq, suffix, hsf, hlk⟩ := hmapsto u hu ⟨p, hp, hstart⟩
    rw [hlok] at hlk
    cases hlk

/-- Witness for the amended C7: the spec scenario - mapping "http://old/"
to "http://new/" builds the entry "http://old/Thing" to "http://new/Thing"
and migration leaves zero references to the old namespace. -/
theorem namespace_remap_clears_old_ns_witness :
    (build_uri_map_from_namespaces oldNsGraph plainNsTable).lookup
      "http://old/Thing" = some "http://new/Thing" ∧
    graphReferencesNs
      (migrate oldNsGraph
        (build_uri_map_from_namespaces oldNsGraph plainNsTable)).migrated_graph
      "http://old/" = false := by
  have h := namespace_remap_clears_old_ns oldNsGraph plainNsTable ?hdiv
  · exact ⟨by decide, h.2 ("http://old/", "http://new/") (by decide)⟩
  case hdiv => decide

theorem moduleImportTriples_nil (g : RDFGraph) (ms : List ModuleDefinition)
    (m : ModuleDefinition) (h1 : m.imports = []) (h2 : m.auto_imports = false) :
    moduleImportTriples g ms m = [] := by
  unfold moduleImportTriples
  rw [h1, h2]
  simp

theorem splitGraph_common_modules (cfg : SplitConfig) (g : RDFGraph)
    (hcommon : cfg.unmatched.strategy = UnmatchedKind.common) :
    (splitGraph cfg g).modules =
      cfg.modules.map (fun m => (m.name,
        moduleGraph g cfg.modules m ++ moduleImportTriples g cfg.modules m)) ++
      [(cfg.unmatched.common_module, unmatchedGraph g cfg.modules)] ∧
    (splitGraph cfg g).success = true := by
  have hcond : ¬(cfg.unmatched.strategy = UnmatchedKind.error ∧
      (graphEntities g).filter
        (fun e => decide (assign_entity g cfg.modules e = none)) ≠ []) := by
    rintro ⟨h1, _⟩
    rw [hcommon] at h1
    cases h1
  unfold splitGraph
  rw [if_neg hcond]
  constructor
  · dsimp only
    rw [hcommon]
  · rfl

theorem outputs_canonical (g : RDFGraph) (ms : List ModuleDefinition)
    (common : String) :
    ms.map (fun m => (m.name, moduleGraph g ms m)) ++
      [(common, unmatchedGraph g ms)] =
    (ms.map (fun m => (m.name, some m.name)) ++
      [(common, (none : Option String))]).map
      (fun nk => (nk.1, g.filter
        (fun t => decide (assign_entity g ms t.subj = nk.2)))) := by
  rw [List.map_append, List.map_map]
  rfl

set_option maxHeartbeats 1600000 in
/-- C1: splitting a graph into modules with auto imports disabled (and no
explicit imports), with the unmatched strategy routing unmatched entities
to the common module, and then merging all of the split's module outputs
with the priority strategy, reproduces a graph with the same triple count
and the same content as the original input graph; no import declarations
exist to be discounted since none are added. -/
theorem round_trip_split_merge (cfg : SplitConfig) (g : RDFGraph)
    (hset : g.Nodup)
    (hnames : (cfg.modules.map (fun m => m.name)).Nodup)
    (hcommon : cfg.unmatched.strategy = UnmatchedKind.common)
    (hnoimp : ∀ m ∈ cfg.modules, m.imports = [] ∧ m.auto_imports = false) :
    (splitGraph cfg g).success = true ∧
    (mergeSources (sourceGraphsOfOutputs 0 (splitGraph cfg g).modules)
      .priority []).success = true ∧
    List.Perm (mergeSources (sourceGraphsOfOutputs 0 (splitGraph cfg g).modules)
      .priority []).merged_graph g ∧
    (mergeSources (sourceGraphsOfOutputs 0 (splitGraph cfg g).modules)
      .priority []).merged_graph.length = g.length ∧
    (∀ t : Triple, t ∈ (mergeSources (sourceGraphsOfOutputs 0
      (splitGraph cfg g).modules) .priority []).merged_graph ↔ t ∈ g) := by
  obtain ⟨hmods, hsucc⟩ := splitGraph_common_modules cfg g hcommon
  have hbase : cfg.modules.map (fun m => (m.name,
      moduleGraph g cfg.modules m ++ moduleImportTriples g cfg.modules m)) =
      cfg.modules.map (fun m => (m.name, moduleGraph g cfg.modules m)) := by
    refine List.map_congr_left (fun m hm => ?_)
    rw [moduleImportTriples_nil g cfg.modules m (hnoimp m hm).1 (hnoimp m hm).2,
      List.append_nil]
  rw [hbase, outputs_canonical g cfg.modules cfg.unmatched.common_module] at hmods
  have hkeys : ((cfg.modules.map (fun m => (m.name, some m.name)) ++
      [(cfg.unmatched.common_module, (none : Option String))]).map
        (fun nk => nk.2)) =
      (cfg.modules.map (fun m => m.name)).map some ++ [none] := by
    rw [List.map_append, List.map_map, List.map_map]
    rfl
  have hknodup : ((cfg.modules.map (fun m => (m.name, some m.name)) ++
      [(cfg.unmatched.common_module, (none : Option String))]).map
        (fun nk => nk.2)).Nodup := by
    rw [hkeys, List.nodup_append]
    refine ⟨List.Nodup.map (Option.some_injective String) hnames,
      List.nodup_singleton none, ?_⟩
    intro a ha hb
    rw [List.mem_singleton] at hb
    subst hb
    obtain ⟨x, _, hx⟩ := List.mem_map.mp ha
    cases hx
  have hcov : ∀ t ∈ g, assign_entity g cfg.modules t.subj ∈
      ((cfg.modules.map (fun m => (m.name, some m.name)) ++
        [(cfg.unmatched.common_module, (none : Option String))]).map
          (fun nk => nk.2)) := by
    intro t _
    rw [hkeys]
    cases hass : assign_entity g cfg.modules t.subj with
    | none => simp
    | some n =>
      unfold assign_entity at hass
      obtain ⟨m, hfind, hname⟩ := Option.map_eq_some'.mp hass
      have hm : m ∈ cfg.modules := List.mem_of_find?_eq_some hfind
      refine List.mem_append.mpr (Or.inl ?_)
      refine List.mem_map.mpr ⟨n, ?_, rfl⟩
      exact List.mem_map.mpr ⟨m, hm, hname⟩
  have hflatg : (sourceGraphsOfOutputs 0 (splitGraph cfg g).modules).flatMap
      (fun sg => sg.graph) =
      (((cfg.modules.map (fun m => (m.name, some m.name)) ++
        [(cfg.unmatched.common_module, (none : Option String))]).map
          (fun nk => nk.2)).flatMap
        (fun k => g.filter
          (fun t => decide (assign_entity g cfg.modules t.subj = k)))) := by
    rw [sourceGraphsOfOutputs_flat, hmods, List.flatMap_map, List.flatMap_map]
  have hperm : List.Perm ((sourceGraphsOfOutputs 0
      (splitGraph cfg g).modules).flatMap (fun sg => sg.graph)) g := by
    rw [hflatg]
    exact perm_flatMap_filter_key (fun t => assign_entity g cfg.modules t.subj)
      ((cfg.modules.map (fun m => (m.name, some m.name)) ++
        [(cfg.unmatched.common_module, (none : Option String))]).map
          (fun nk => nk.2)) g hknodup hcov
  have hdet : detect_conflicts
      (sourceGraphsOfOutputs 0 (splitGraph cfg g).modules) [] = [] := by
    refine detect_conflicts_eq_nil_of _ [] (fun a b => ?_)
    refine isConflict_false_of_le_one _ a b ?_
    unfold sourcesWith
    rw [hmods]
    exact sourcesWith_filter_le_one g cfg.modules a b
      (cfg.modules.map (fun m => (m.name, some m.name)) ++
        [(cfg.unmatched.common_module, (none : Option String))]) 0 hknodup
  obtain ⟨hmerged, hmsucc⟩ := mergeSources_priority_no_conflicts _ [] hdet
  have hpermAll : List.Perm (mergeSources
      (sourceGraphsOfOutputs 0 (splitGraph cfg g).modules)
      .priority []).merged_graph g := by
    rw [hmerged]
    unfold allTriples
    have hnd : ((sourceGraphsOfOutputs 0 (splitGraph cfg g).modules).flatMap
        (fun sg => sg.graph)).Nodup := hperm.symm.nodup hset
    rw [List.dedup_eq_self.mpr hnd]
    exact hperm
  exact ⟨hsucc, hmsucc, hpermAll, hpermAll.length_eq, fun t => hpermAll.mem_iff⟩

/-- Witness for C1: the two-namespace fixture splits successfully and
merging its module outputs restores the original triple count. -/
theorem round_trip_split_merge_witness :
    (splitGraph twoNsConfig twoNsGraph).success = true ∧
    (mergeSources (sourceGraphsOfOutputs 0
      (splitGraph twoNsConfig twoNsGraph).modules) .priority []).success = true ∧
    (mergeSources (sourceGraphsOfOutputs 0
      (splitGraph twoNsConfig twoNsGraph).modules)
      .priority []).merged_graph.length = twoNsGraph.length := by
  have h := round_trip_split_merge twoNsConfig twoNsGraph (by decide) (by decide)
    rfl (by decide)
  exact ⟨h.1, h.2.1, h.2.2.2.1⟩
